import Mathlib

/-!
# Verification of the drepo repository-hygiene toolkit

A shallow embedding of the drepo package (`enforce.py`, `make_init.py`,
`write_tests.py`) together with theorems settling the frozen claims about it.

Python strings are modelled as `List Char`; the Python string operations the
source uses (`split` on a one-character separator, `startswith`, `endswith`,
`rstrip` of one character, slicing) are given faithful executable definitions
below.  Filesystem paths are modelled as lists of components, and the printed
diagnostic stream is modelled structurally as a list of messages.
-/

namespace Drepo

/-! ## Python string primitives over `List Char` -/

/-- `s.startswith(p)` for Python strings. -/
def pyStartsWith : List Char → List Char → Bool
  | _, [] => true
  | [], _ :: _ => false
  | c :: cs, p :: ps => c = p && pyStartsWith cs ps

/-- `s.endswith(p)` for Python strings. -/
def pyEndsWith (s p : List Char) : Bool :=
  pyStartsWith s.reverse p.reverse

/-- `s.split(sep)` for a one-character separator (the only kind the source
uses).  Like Python, `"".split(c) = [""]` and empty pieces are kept. -/
def pySplitChar (sep : Char) : List Char → List (List Char)
  | [] => [[]]
  | c :: rest =>
    if c = sep then [] :: pySplitChar sep rest
    else
      match pySplitChar sep rest with
      | [] => [[c]]
      | r :: rs => (c :: r) :: rs

/-- `s.rstrip(c)` for a single character: drop all trailing copies of `c`. -/
def pyRStrip (c : Char) (s : List Char) : List Char :=
  (s.reverse.dropWhile (· = c)).reverse

/-- `", ".join(xs)`-style joining. -/
def pyJoin (sep : List Char) (xs : List (List Char)) : List Char :=
  List.intercalate sep xs

/-- Python `sorted` comparison on strings: lexicographic by code point. -/
def pyStrLt : List Char → List Char → Bool
  | [], [] => false
  | [], _ :: _ => true
  | _ :: _, [] => false
  | a :: as, b :: bs => a.toNat < b.toNat || (a = b && pyStrLt as bs)

def pyStrLe (a b : List Char) : Bool :=
  pyStrLt a b || a = b

/-- One step of insertion sort with `pyStrLe` (Python `sorted` is an
ascending stable sort; the keys sorted in the source are distinct). -/
def insertSorted (x : List Char) : List (List Char) → List (List Char)
  | [] => [x]
  | y :: ys => if pyStrLe x y then x :: y :: ys else y :: insertSorted x ys

/-- Ascending sort of strings, as Python `sorted`. -/
def sortStrings : List (List Char) → List (List Char)
  | [] => []
  | x :: xs => insertSorted x (sortStrings xs)

/-! ## Declaration extractor (`make_init.get_python_definitions`)

The source builds `cap_letters = frozenset("ABC...XYZ")` and
`extended_letters = frozenset(cap_letters & {"_"})` — note `&` is set
*intersection* there, so `extended_letters` is empty — and appends a
constant token `temp2` when `len(extended_letters - set(temp2)) == 0`. -/

def capLetters : List Char := "ABCDEFGHIJKLMNOPQRSTUVWXYZ".toList

/-- `frozenset(cap_letters & {"_"})` from the source: the intersection of the
uppercase letters with `{"_"}`, which is empty. -/
def extendedLetters : List Char := capLetters.filter (fun c => c = '_')

/-- `line[len(kw):].split("(")[0].split(":")[0]`: the name extraction the
source applies after a `class ` or `def ` keyword (the keyword is already
dropped by the caller). -/
def extractName (s : List Char) : List Char :=
  ((pySplitChar ':' ((pySplitChar '(' s).headD [])).headD [])

/-- `line.split(" ")[0].split(":")[0]`: the candidate constant token. -/
def constToken (line : List Char) : List Char :=
  ((pySplitChar ':' ((pySplitChar ' ' line).headD [])).headD [])

/-- The declarations contributed by one line processed in the normal scanner
state: the `class `, `def ` and constant-assignment checks of the source,
which are three independent `if` statements appending in this order. -/
def declsOfLine (includePrivate : Bool) (line : List Char) : List (List Char) :=
  let f1 :=
    if pyStartsWith line ("class ".toList)
        && (includePrivate || !pyStartsWith line ("class _".toList)) then
      [extractName (line.drop ("class ".toList).length)]
    else []
  let f2 :=
    if pyStartsWith line ("def ".toList)
        && (includePrivate || !pyStartsWith line ("def _".toList)) then
      [extractName (line.drop ("def ".toList).length)]
    else []
  let f3 :=
    match line with
    | [] => []
    | c0 :: _ =>
      if capLetters.contains c0 && line.contains '=' && line.contains ' ' then
        let temp2 := constToken line
        if (extendedLetters.filter (fun c => !temp2.contains c)).length = 0 then
          [temp2]
        else []
      else []
  f1 ++ f2 ++ f3

/-- Whether a line processed in the normal state opens a triple-quoted block:
`line.startswith('r"""') or line.startswith('"""')`. -/
def opensBlock (line : List Char) : Bool :=
  pyStartsWith line ("r\"\"\"".toList) || pyStartsWith line ("\"\"\"".toList)

/-- The single forward pass of `get_python_definitions` over the logical
lines, with the two scan flags `skip_next` and `skip_strs`. -/
def scanDefs (includePrivate : Bool) : List (List Char) → Bool → Bool → List (List Char)
  | [], _, _ => []
  | line :: rest, skipNext, skipStrs =>
    if skipNext then scanDefs includePrivate rest false skipStrs
    else if skipStrs then
      if pyEndsWith line ("\"\"\"".toList) then scanDefs includePrivate rest false false
      else scanDefs includePrivate rest false true
    else if line = "@overload".toList then scanDefs includePrivate rest true skipStrs
    else
      declsOfLine includePrivate line ++ scanDefs includePrivate rest false (opensBlock line)

/-- `get_python_definitions(text, include_private=...)` from `make_init.py`
at the character-list level: split the text on newlines and run the scanner
from the normal state. -/
def getPythonDefinitionsL (text : List Char) (include_private : Bool) : List (List Char) :=
  scanDefs include_private (pySplitChar '\n' text) false false

/-- `get_python_definitions(text, include_private=...)` from `make_init.py`. -/
def get_python_definitions (text : String) (include_private : Bool := false) : List String :=
  (getPythonDefinitionsL text.toList include_private).map (fun l => String.mk l)

/-! ## Repository scanner (`enforce.find_repo_issues`)

Paths are lists of components; `e == p or e in p.parents` is exactly
"`e` is a component-prefix of `p`".  A scanned file carries the data the
source inspects: its printable name, its suffix, whether it is a regular
file, its execute bit, and the result of `file.readlines()` — `none` models
a `UnicodeDecodeError`.  The printed diagnostics are modelled structurally.

The per-function local variable `lines` is assigned only when `readlines()`
succeeds, so after a decode error the line loop runs over the previous
file's lines — or raises `NameError` when no file was decoded yet.  The
embedding threads that variable as an `Option` and returns `Except`. -/

/-- `e == p or e in p.parents`: `e` equals `p` or is an ancestor of `p`,
i.e. the components of `e` are a prefix of the components of `p`. -/
def isUnder (e p : List String) : Bool :=
  match e, p with
  | [], _ => true
  | _ :: _, [] => false
  | a :: as, b :: bs => a = b && isUnder as bs

/-- `_is_excluded(path, exclusions)` from the source (`None` is the empty
list: both make every membership test fail). -/
def isExcluded (path : List String) (exclusions : List (List String)) : Bool :=
  exclusions.any (fun e => isUnder e path)

/-- One line of the printed diagnostic stream, kept structural (the source
prints `repr` of the raw text; the raw text itself is stored here). -/
inductive Msg where
  | evaluating : String → Msg
  | executeBit : String → Msg
  | decodeError : String → Msg
  | lineIssue : String → Nat → List Char → Msg
  | badEol : String → List Char → Msg
deriving DecidableEq

/-- Whether a message is an issue (everything except the `Evaluating`
header is a reported problem). -/
def Msg.isIssue : Msg → Bool
  | .evaluating _ => false
  | _ => true

/-- One entry yielded by `folder.rglob("*")`. -/
structure ScanFile where
  name : String
  suffix : String
  isFile : Bool
  executable : Bool
  content : Option (List (List Char))
deriving DecidableEq

/-- The state of the per-line loop of `find_repo_issues`. -/
structure LineState where
  is_clean : Bool
  already_listed : Bool
  bad_lines : Bool
  msgs : List Msg
deriving DecidableEq

/-- `line.rstrip("\n").rstrip("\r").rstrip("\n")` from the source. -/
def slineOf (line : List Char) : List Char :=
  pyRStrip '\n' (pyRStrip '\r' (pyRStrip '\n' line))

/-- `line[-(len(line) - len(sline)):]` from the source; Python's `line[-0:]`
is the whole line. -/
def lineEndingOf (line sline : List Char) : List Char :=
  let k := line.length - sline.length
  if k = 0 then line else line.drop (line.length - k)

/-- The body of `for c, line in enumerate(lines)` for one line. -/
def checkLine (fname : String) (check_tabs trailing : Bool)
    (check_eol : Option (List Char)) (total c : Nat) (line : List Char)
    (st : LineState) : LineState :=
  let sline := slineOf line
  let st :=
    if check_tabs && line.contains '\t' then
      let st :=
        if !st.already_listed then
          { st with already_listed := true, is_clean := false,
                    msgs := st.msgs ++ [.evaluating fname] }
        else st
      { st with msgs := st.msgs ++ [.lineIssue fname (c + 1) line] }
    else if trailing && decide (1 ≤ sline.length) && sline.getLastD ' ' = ' ' then
      let st :=
        if !st.already_listed then
          { st with already_listed := true, is_clean := false,
                    msgs := st.msgs ++ [.evaluating fname] }
        else st
      { st with msgs := st.msgs ++ [.lineIssue fname (c + 1) line] }
    else st
  match check_eol with
  | none => st
  | some eol =>
    if decide (c ≠ total - 1) && !pyEndsWith line eol && !st.bad_lines then
      { st with bad_lines := true, is_clean := false,
                msgs := st.msgs ++ [.badEol fname (lineEndingOf line sline)] }
    else st

/-- The per-line loop over one file's `lines`. -/
def scanFileLines (fname : String) (check_tabs trailing : Bool)
    (check_eol : Option (List Char)) (total : Nat) :
    Nat → List (List Char) → LineState → LineState
  | _, [], st => st
  | c, line :: rest, st =>
    scanFileLines fname check_tabs trailing check_eol total (c + 1) rest
      (checkLine fname check_tabs trailing check_eol total c line st)

/-- Processing of one matching, non-excluded file: headers, execute check,
decode, then the line loop over the (possibly stale) `lines` variable.
Returns the new verdict, the new `lines` variable, and this file's
messages, or the uncaught `NameError` when `lines` was never assigned. -/
def processFile (list_all check_tabs trailing : Bool)
    (check_eol : Option (List Char)) (show_execute : Bool) (f : ScanFile)
    (is_clean : Bool) (linesVar : Option (List (List Char))) :
    Except String (Bool × Option (List (List Char)) × List Msg) :=
  let msgs := if list_all then [Msg.evaluating f.name] else []
  let already := list_all
  let st0 : Bool × List Msg :=
    if show_execute && f.executable then (false, msgs ++ [Msg.executeBit f.name])
    else (is_clean, msgs)
  let st1 : Bool × List Msg × Option (List (List Char)) :=
    match f.content with
    | some ls => (st0.1, st0.2, some ls)
    | none => (false, st0.2 ++ [Msg.decodeError f.name], linesVar)
  match st1.2.2 with
  | none => .error "NameError: name 'lines' is not defined"
  | some ls =>
    let stF := scanFileLines f.name check_tabs trailing check_eol ls.length 0 ls
      ⟨st1.1, already, false, st1.2.1⟩
    .ok (stF.is_clean, some ls, stF.msgs)

/-- Whether the extension filter admits a file: `extensions is None or
this_file.suffix in extensions`. -/
def extMatch (extensions : Option (List String)) (suffix : String) : Bool :=
  match extensions with
  | none => true
  | some exts => exts.contains suffix

/-- The walk over `folder.rglob("*")`, threading the verdict, the `lines`
variable and the printed stream. -/
def scanWalk (folder : List String) (extensions : Option (List String))
    (list_all check_tabs trailing : Bool) (exclusions : List (List String))
    (check_eol : Option (List Char)) (show_execute : Bool) :
    List ScanFile → Bool → Option (List (List Char)) → List Msg →
    Except String (Bool × List Msg)
  | [], is_clean, _, msgs => .ok (is_clean, msgs)
  | f :: rest, is_clean, linesVar, msgs =>
    if !f.isFile then
      scanWalk folder extensions list_all check_tabs trailing exclusions
        check_eol show_execute rest is_clean linesVar msgs
    else if extMatch extensions f.suffix then
      if isExcluded folder exclusions then
        scanWalk folder extensions list_all check_tabs trailing exclusions
          check_eol show_execute rest is_clean linesVar msgs
      else
        match processFile list_all check_tabs trailing check_eol show_execute
            f is_clean linesVar with
        | .error e => .error e
        | .ok (c2, lv2, fmsgs) =>
          scanWalk folder extensions list_all check_tabs trailing exclusions
            check_eol show_execute rest c2 lv2 (msgs ++ fmsgs)
    else
      scanWalk folder extensions list_all check_tabs trailing exclusions
        check_eol show_execute rest is_clean linesVar msgs

/-- `find_repo_issues` from `enforce.py`: returns the verdict and the
printed diagnostic stream, or the uncaught exception. -/
def find_repo_issues (folder : List String) (files : List ScanFile)
    (extensions : Option (List String) := some [".m", ".py"])
    (list_all : Bool := false) (check_tabs : Bool := true)
    (trailing : Bool := false) (exclusions : List (List String) := [])
    (check_eol : Option (List Char) := none) (show_execute : Bool := false) :
    Except String (Bool × List Msg) :=
  scanWalk folder extensions list_all check_tabs trailing exclusions
    check_eol show_execute files true none []

/-! ## Manifest generator (`make_init.make_python_init`)

The source's `exclusions = ["__init__.py"]` holds *strings*, and the test
`any((exc in this_elem.parents for exc in exclusions))` compares each string
against `Path` objects.  Python's `==` between a `str` and a `Path` is
always `False`, which the embedding captures with a typed value and a
cross-type-false equality, exactly as Python evaluates it. -/

/-- A Python value as it appears in the source's comparisons: a string, a
path, or a tuple of paths. -/
inductive PyVal where
  | str : String → PyVal
  | path : List String → PyVal
  | tup : List (List String) → PyVal
deriving DecidableEq

/-- Python `==` on such values: equal only within the same type; any
cross-type comparison is `False`. -/
def pyEq : PyVal → PyVal → Bool
  | .str a, .str b => a = b
  | .path a, .path b => a = b
  | .tup a, .tup b => a = b
  | _, _ => false

/-- One entry yielded by `folder.glob("*")` for the manifest generator. -/
structure InitFile where
  stem : List Char
  suffix : String
  isDir : Bool
  parents : List (List String)
  text : List Char
deriving DecidableEq

/-- `exclusions = ["__init__.py"]` from the source. -/
def initExclusions : List String := ["__init__.py"]

/-- Python dict assignment `results[k] = v`: replace in place when the key
exists, else append (insertion order preserved). -/
def dictInsert (acc : List (List Char × List (List Char))) (k : List Char)
    (v : List (List Char)) : List (List Char × List (List Char)) :=
  if acc.any (fun p => p.1 = k) then
    acc.map (fun p => if p.1 = k then (k, v) else p)
  else acc ++ [(k, v)]

/-- The file loop of `make_python_init`, accumulating the `results` dict. -/
def gatherResults : List InitFile → List (List Char × List (List Char)) →
    List (List Char × List (List Char))
  | [], acc => acc
  | e :: rest, acc =>
    if !e.isDir then
      if e.suffix = ".py" then
        if initExclusions.any
            (fun exc => e.parents.any (fun par => pyEq (PyVal.str exc) (PyVal.path par))) then
          gatherResults rest acc
        else
          let funcs := getPythonDefinitionsL e.text false
          if 0 < funcs.length then gatherResults rest (dictInsert acc e.stem funcs)
          else gatherResults rest acc
      else gatherResults rest acc
    else gatherResults rest acc

/-- Python `max` over a list of naturals: `ValueError` on an empty list. -/
def pyMaxNat : List Nat → Except String Nat
  | [] => .error "ValueError: max() arg is an empty sequence"
  | x :: xs => .ok (xs.foldl Nat.max x)

/-- `results[key]` lookup in the accumulated association list. -/
def assocFind (acc : List (List Char × List (List Char))) (k : List Char) :
    List (List Char) :=
  match acc.find? (fun p => p.1 = k) with
  | some p => p.2
  | none => []

/-- `"from ." + key + pad + " import "` with the lineup padding of the
source: `pad = " " * (max_len - len(key))` when `lineup`, else empty. -/
def headerOf (lineup : Bool) (max_len : Nat) (key : List Char) : List Char :=
  "from .".toList ++ key
    ++ (if lineup then List.replicate (max_len - key.length) ' ' else [])
    ++ " import ".toList

/-- Modelled from the spec: the external word-wrap collaborator `line_wrap`
(imported from the `dstauffman` package, which is not part of this
repository).  Per the spec it re-flows the candidate lines under the wrap
column and signals an error when the minimum wrap width exceeds the wrap
column; the re-flowing itself is unspecified and irrelevant to the claims,
so the success case returns the candidate lines. -/
def line_wrap (lines : List (List Char)) (wrap min_wrap _indent : Nat) :
    Except String (List (List Char)) :=
  if wrap < min_wrap then
    .error "ValueError: the specified min_wrap:wrap was too small."
  else .ok lines

/-- The rendering loop of `make_python_init` over the sorted module keys. -/
def renderModules (results : List (List Char × List (List Char))) (lineup : Bool)
    (wrap max_len indent : Nat) : List (List Char) → Except String (List (List Char))
  | [] => .ok []
  | key :: keys =>
    let temp := pyJoin (", ".toList) (assocFind results key)
    let header := headerOf lineup max_len key
    let min_wrap := header.length
    match line_wrap [header ++ temp] wrap min_wrap indent with
    | .error e => .error e
    | .ok wrapped =>
      match renderModules results lineup wrap max_len indent keys with
      | .error e => .error e
      | .ok restLines => .ok (wrapped ++ restLines)

/-- The result of a successful `make_python_init` run: the rendered text,
the files written (empty when no filename was supplied), and the duplicated
declaration names reported by the advisory uniqueness warning. -/
structure MakeInitOut where
  output : List Char
  written : List (List String × List Char)
  dups : List (List Char)
deriving DecidableEq

/-- `make_python_init(folder, lineup=..., wrap=..., filename=...)` from
`make_init.py`; the folder is given as its `glob("*")` listing. -/
def make_python_init (files : List InitFile) (lineup : Bool := true)
    (wrap : Nat := 100) (filename : Option (List String) := none) :
    Except String MakeInitOut :=
  let results := gatherResults files []
  let all_funcs := (results.map (fun p => p.2)).flatten
  let dups := (all_funcs.filter (fun x => 1 < all_funcs.count x)).dedup
  match pyMaxNat (results.map (fun p => p.1.length)) with
  | .error e => .error e
  | .ok max_len =>
    let indent := ("from . import ".toList).length + max_len + 4
    match renderModules results lineup wrap max_len indent
        (sortStrings (results.map (fun p => p.1))) with
    | .error e => .error e
    | .ok textLines =>
      let output := pyJoin ['\n'] textLines
      .ok ⟨output,
        (match filename with | some f => [(f, output)] | none => []), dups⟩

/-! ## Test-skeleton generator (`write_tests.write_unit_test_templates`)

The folder listing `list_python_files(folder, recursive=...)` comes from
the external `dstauffman` package; per the spec it yields the source files
under the folder in a deterministic order, so the embedding takes that list
as input.  `str(file)[len(str(folder)) + 1 :].split("/")` is the list of
path components of the file relative to the folder. -/

/-- One file yielded by the folder listing. -/
structure TestFile where
  path : List String
  text : List Char
deriving DecidableEq

/-- `file.parents` of a path: all proper ancestor paths. -/
def parentsOf (p : List String) : List (List String) :=
  (List.range p.length).map (fun k => p.take k)

/-- The hard-coded import substitution table `_subs` of the source. -/
def baseSubs : List (List Char × List Char) :=
  [("dstauffman".toList, "dcs".toList),
   ("dstauffman.aerospace".toList, "space".toList),
   ("dstauffman.commands".toList, "commands".toList),
   ("dstauffman.estimation".toList, "estm".toList),
   ("dstauffman.health".toList, "health".toList),
   ("dstauffman.plotting".toList, "plot".toList)]

/-- `_subs.update(repo_subs)` followed by lookup: caller-supplied pairs
override the built-in table. -/
def subsFind (repo_subs : List (List Char × List Char)) (k : List Char) :
    Option (List Char) :=
  match repo_subs.find? (fun p => p.1 = k) with
  | some p => some p.2
  | none =>
    match baseSubs.find? (fun p => p.1 = k) with
    | some p => some p.2
    | none => none

/-- The skip test of the file loop:
`exclude is not None and exclude in file.parents or output in file.parents`
(Python precedence: `(A and B) or C`).  When `exclude` is a tuple, the
membership test compares a tuple against `Path` objects. -/
def testFileSkipped (output : List String) (exclude : Option PyVal)
    (f : TestFile) : Bool :=
  (match exclude with
   | none => false
   | some v => (parentsOf f.path).any (fun p => pyEq v (PyVal.path p)))
  || (parentsOf f.path).contains output

/-- The document built for one source file, and its output path
`output / ("test_" + "_".join(names))`. -/
def buildTestSkeleton (output : List String) (repoName : List Char)
    (folderLen : Nat) (author month year : List Char) (add_classification : Bool)
    (repo_subs : List (List Char × List Char)) (f : TestFile) :
    List String × List Char :=
  let names : List (List Char) := (f.path.drop folderLen).map String.toList
  let funcs := getPythonDefinitionsL f.text true
  let lastName := names.getLastD []
  let modName := lastName.take (lastName.length - 3)
  let sub_repo := pyJoin ['.'] names.dropLast
  let this_repo := repoName ++ (if sub_repo ≠ [] then '.' :: sub_repo else [])
  let headerLines := ["r\"\"\"".toList,
    "Test file for the `".toList ++ modName ++ "` module of the \"".toList
      ++ this_repo ++ "\" library.".toList,
    [], "Notes".toList, "-----".toList,
    "#.  Written by ".toList ++ author ++ " in ".toList ++ month ++ [' ']
      ++ year ++ ".".toList]
  let classLines :=
    if add_classification then
      [[], "Classification".toList, "--------------".toList, "TBD".toList]
    else []
  let preImport := ["\"\"\"".toList, [], "# %% Imports".toList,
    "import unittest".toList, []]
  let import_text := "import ".toList ++ this_repo
    ++ (match subsFind repo_subs this_repo with
        | some v => " as ".toList ++ v
        | none => [])
  let funcBlocks := funcs.map (fun fn =>
    let fn2 := if pyStartsWith fn ['_'] then modName ++ '.' :: fn else fn
    let func_name := if sub_repo ≠ [] then sub_repo ++ '.' :: fn2 else fn2
    let temp_name := func_name.map (fun c => if c = '.' then '_' else c)
    ["# %% ".toList ++ func_name,
     "class Test_".toList ++ temp_name ++ "(unittest.TestCase):".toList,
     "    r\"\"\"".toList,
     "    Tests the ".toList ++ func_name ++ " function with the following cases:".toList,
     "        TBD".toList,
     "    \"\"\"".toList, [],
     "    pass  # TODO: write this".toList, [], []])
  let tailLines := ["# %% Unit test execution".toList,
    "if __name__ == \"__main__\":".toList,
    "    unittest.main(exit=False)".toList, []]
  let textLines := headerLines ++ classLines ++ preImport
    ++ [import_text, [], []] ++ funcBlocks.flatten ++ tailLines
  let newFile := output ++ [String.mk ("test_".toList ++ pyJoin ['_'] names)]
  (newFile, pyJoin ['\n'] textLines)

/-- The file loop of `write_unit_test_templates`: progress messages (the
announced output paths) and the files written, in order. -/
def writeTestsGo (output : List String) (exclude : Option PyVal)
    (repoName : List Char) (folderLen : Nat) (author month year : List Char)
    (add_classification : Bool) (repo_subs : List (List Char × List Char)) :
    List TestFile → List (List String) × List (List String × List Char)
  | [] => ([], [])
  | f :: rest =>
    let acc := writeTestsGo output exclude repoName folderLen author month year
      add_classification repo_subs rest
    if testFileSkipped output exclude f then acc
    else
      let doc := buildTestSkeleton output repoName folderLen author month year
        add_classification repo_subs f
      (doc.1 :: acc.1, (doc.1, doc.2) :: acc.2)

/-- `write_unit_test_templates` from `write_tests.py`: the folder and
output folder are component paths, the files are the folder listing, and
the current month and year (read from the clock in the source) are inputs.
`repo_name = files[0].parent.name` raises `IndexError` on an empty listing. -/
def write_unit_test_templates (folder output : List String)
    (files : List TestFile) (author : List Char) (exclude : Option PyVal)
    (repo_subs : List (List Char × List Char)) (add_classification : Bool)
    (month year : List Char) :
    Except String (List (List String) × List (List String × List Char)) :=
  match files with
  | [] => .error "IndexError: list index out of range"
  | f0 :: _ =>
    .ok (writeTestsGo output exclude ((f0.path.dropLast).getLastD "").toList
      folder.length author month year add_classification repo_subs files)

/-! ## Lemmas about the string primitives -/

theorem pyStartsWith_iff (s p : List Char) :
    pyStartsWith s p = true ↔ ∃ t, s = p ++ t := by
  induction p generalizing s with
  | nil => simp [pyStartsWith]
  | cons c ps ih =>
    cases s with
    | nil => simp [pyStartsWith]
    | cons a as =>
      simp only [pyStartsWith, Bool.and_eq_true, decide_eq_true_eq, ih,
        List.cons_append, List.cons.injEq]
      constructor
      · rintro ⟨rfl, t, rfl⟩; exact ⟨t, rfl, rfl⟩
      · rintro ⟨t, rfl, rfl⟩; exact ⟨rfl, t, rfl⟩

theorem pyStartsWith_append (p t q : List Char) :
    pyStartsWith (p ++ t) (p ++ q) = pyStartsWith t q := by
  induction p with
  | nil => rfl
  | cons a as ih => simp [pyStartsWith, ih]

theorem pyStartsWith_underscore (x : List Char) :
    pyStartsWith x ['_'] = true ↔ ∃ t, x = '_' :: t := by
  rw [pyStartsWith_iff]
  simp

theorem pySplitChar_ne_nil (sep : Char) (s : List Char) :
    pySplitChar sep s ≠ [] := by
  induction s with
  | nil => simp [pySplitChar]
  | cons a rest ih =>
    by_cases h : a = sep
    · simp [pySplitChar, h]
    · simp only [pySplitChar, if_neg h]
      cases hrec : pySplitChar sep rest with
      | nil => simp
      | cons r rs => simp

theorem pySplitChar_headD_append (sep : Char) (s : List Char) :
    ∃ r, (pySplitChar sep s).headD [] ++ r = s := by
  induction s with
  | nil => exact ⟨[], rfl⟩
  | cons a rest ih =>
    by_cases h : a = sep
    · exact ⟨a :: rest, by simp [pySplitChar, h]⟩
    · obtain ⟨t, ht⟩ := ih
      simp only [pySplitChar, if_neg h]
      cases hrec : pySplitChar sep rest with
      | nil => exact absurd hrec (pySplitChar_ne_nil sep rest)
      | cons r rs =>
        refine ⟨t, ?_⟩
        rw [hrec] at ht
        simpa using ht

theorem extractName_append (s : List Char) : ∃ r, extractName s ++ r = s := by
  obtain ⟨r1, h1⟩ := pySplitChar_headD_append '(' s
  obtain ⟨r2, h2⟩ := pySplitChar_headD_append ':' ((pySplitChar '(' s).headD [])
  exact ⟨r2 ++ r1, by rw [extractName, ← List.append_assoc, h2, h1]⟩

theorem constToken_append (line : List Char) : ∃ r, constToken line ++ r = line := by
  obtain ⟨r1, h1⟩ := pySplitChar_headD_append ' ' line
  obtain ⟨r2, h2⟩ := pySplitChar_headD_append ':' ((pySplitChar ' ' line).headD [])
  exact ⟨r2 ++ r1, by rw [constToken, ← List.append_assoc, h2, h1]⟩

/-! ## Lemmas about the declaration extractor -/

theorem scanDefs_skipNext (incl : Bool) (line : List Char)
    (rest : List (List Char)) (ss : Bool) :
    scanDefs incl (line :: rest) true ss = scanDefs incl rest false ss := by
  simp [scanDefs]

theorem scanDefs_skipStrs (incl : Bool) (line : List Char)
    (rest : List (List Char)) :
    scanDefs incl (line :: rest) false true =
      if pyEndsWith line ("\"\"\"".toList) = true then scanDefs incl rest false false
      else scanDefs incl rest false true := by
  simp [scanDefs]

theorem scanDefs_normal (incl : Bool) (line : List Char)
    (rest : List (List Char)) (h : line ≠ "@overload".toList) :
    scanDefs incl (line :: rest) false false =
      declsOfLine incl line ++ scanDefs incl rest false (opensBlock line) := by
  simp [scanDefs]
  intro heq
  exact absurd heq (by simpa using h)

theorem scanDefs_overload (incl : Bool) (rest : List (List Char)) :
    scanDefs incl ("@overload".toList :: rest) false false =
      scanDefs incl rest true false := by
  simp [scanDefs]

/-- The name extracted after a keyword does not begin with `_` unless the
line begins with the keyword followed by `_`. -/
theorem extract_no_underscore (kw t : List Char)
    (h2 : pyStartsWith (kw ++ t) (kw ++ ['_']) = false) :
    pyStartsWith (extractName t) ['_'] = false := by
  by_contra hcon
  rw [Bool.not_eq_false, pyStartsWith_underscore] at hcon
  obtain ⟨nt, he⟩ := hcon
  obtain ⟨r, hr⟩ := extractName_append t
  rw [he] at hr
  have ht : t = '_' :: (nt ++ r) := by rw [← hr]; simp
  rw [ht, pyStartsWith_append] at h2
  simp [pyStartsWith] at h2

/-- The constant token of a line whose first character is an uppercase
letter does not begin with `_`. -/
theorem constToken_no_underscore (c0 : Char) (ls : List Char)
    (hcap : c0 ∈ capLetters) :
    pyStartsWith (constToken (c0 :: ls)) ['_'] = false := by
  by_contra hcon
  rw [Bool.not_eq_false, pyStartsWith_underscore] at hcon
  obtain ⟨nt, he⟩ := hcon
  obtain ⟨r, hr⟩ := constToken_append (c0 :: ls)
  rw [he] at hr
  have hc0 : c0 = '_' := by simpa using congrArg (fun l => l.headD ' ') hr.symm
  rw [hc0] at hcap
  exact absurd hcap (by decide)

/-- With `include_private=False`, one line never contributes a name that
begins with an underscore. -/
theorem declsOfLine_no_underscore (line name : List Char)
    (h : name ∈ declsOfLine false line) :
    pyStartsWith name ['_'] = false := by
  simp [declsOfLine] at h
  rcases h with ⟨⟨hc1, hc2⟩, rfl⟩ | ⟨⟨hc1, hc2⟩, rfl⟩ | h
  · obtain ⟨t, rfl⟩ := (pyStartsWith_iff _ _).mp hc1
    have hd : List.drop 6 ((['c','l','a','s','s',' '] : List Char) ++ t) = t := by simp
    rw [hd]
    refine extract_no_underscore (['c','l','a','s','s',' ']) t ?_
    have hlit : ((['c','l','a','s','s',' ','_'] : List Char)) =
        ['c','l','a','s','s',' '] ++ ['_'] := rfl
    rw [hlit] at hc2
    exact hc2
  · obtain ⟨t, rfl⟩ := (pyStartsWith_iff _ _).mp hc1
    have hd : List.drop 4 ((['d','e','f',' '] : List Char) ++ t) = t := by simp
    rw [hd]
    refine extract_no_underscore (['d','e','f',' ']) t ?_
    have hlit : ((['d','e','f',' ','_'] : List Char)) = ['d','e','f',' '] ++ ['_'] := rfl
    rw [hlit] at hc2
    exact hc2
  · cases line with
    | nil => simp at h
    | cons c0 ls =>
      simp at h
      obtain ⟨⟨⟨hcap, _⟩, _⟩, _, rfl⟩ := h
      exact constToken_no_underscore c0 ls hcap

/-- With `include_private=False`, the scanner never returns a name that
begins with an underscore, from any scan state. -/
theorem scanDefs_no_underscore (lines : List (List Char)) :
    ∀ (sn ss : Bool) (name : List Char), name ∈ scanDefs false lines sn ss →
    pyStartsWith name ['_'] = false := by
  induction lines with
  | nil => intro sn ss name h; simp [scanDefs] at h
  | cons line rest ih =>
    intro sn ss name h
    cases sn with
    | true =>
      rw [scanDefs_skipNext] at h
      exact ih false ss name h
    | false =>
      cases ss with
      | true =>
        rw [scanDefs_skipStrs] at h
        split at h
        · exact ih false false name h
        · exact ih false true name h
      | false =>
        by_cases hov : line = "@overload".toList
        · rw [hov, scanDefs_overload] at h
          exact ih true false name h
        · rw [scanDefs_normal _ _ _ hov] at h
          rcases List.mem_append.mp h with h | h
          · exact declsOfLine_no_underscore line name h
          · exact ih false (opensBlock line) name h

/-- A `def ` line reached in the normal state with `include_private=True`
contributes exactly the extracted name and leaves the scanner in the
normal state. -/
theorem scanDefs_def_line (line : List Char) (rest : List (List Char))
    (h : pyStartsWith line ("def ".toList) = true) :
    scanDefs true (line :: rest) false false =
      extractName (line.drop 4) :: scanDefs true rest false false := by
  obtain ⟨t, rfl⟩ := (pyStartsWith_iff _ _).mp h
  have hov : ("def ".toList ++ t) ≠ "@overload".toList := by
    intro he
    have := congrArg (fun l => l.headD ' ') he
    simp at this
  rw [scanDefs_normal _ _ _ hov]
  have hd : declsOfLine true ("def ".toList ++ t) =
      [extractName (("def ".toList ++ t).drop 4)] := by
    simp +decide [declsOfLine, pyStartsWith, capLetters]
  have hob : opensBlock ("def ".toList ++ t) = false := by
    simp +decide [opensBlock, pyStartsWith]
  rw [hd, hob, List.singleton_append]

/-- A `class ` line reached in the normal state with `include_private=True`
contributes exactly the extracted name and leaves the scanner in the
normal state. -/
theorem scanDefs_class_line (line : List Char) (rest : List (List Char))
    (h : pyStartsWith line ("class ".toList) = true) :
    scanDefs true (line :: rest) false false =
      extractName (line.drop 6) :: scanDefs true rest false false := by
  obtain ⟨t, rfl⟩ := (pyStartsWith_iff _ _).mp h
  have hov : ("class ".toList ++ t) ≠ "@overload".toList := by
    intro he
    have := congrArg (fun l => l.headD ' ') he
    simp at this
  rw [scanDefs_normal _ _ _ hov]
  have hd : declsOfLine true ("class ".toList ++ t) =
      [extractName (("class ".toList ++ t).drop 6)] := by
    simp +decide [declsOfLine, pyStartsWith, capLetters]
  have hob : opensBlock ("class ".toList ++ t) = false := by
    simp +decide [opensBlock, pyStartsWith]
  rw [hd, hob, List.singleton_append]

/-! ## Lemmas about the repository scanner -/

/-- When the scan root is excluded, the walk skips every file: the verdict
and the stream are returned unchanged. -/
theorem scanWalk_excluded (folder : List String) (extensions : Option (List String))
    (list_all check_tabs trailing : Bool) (exclusions : List (List String))
    (check_eol : Option (List Char)) (show_execute : Bool)
    (hexc : isExcluded folder exclusions = true) :
    ∀ (files : List ScanFile) (ic : Bool) (lv : Option (List (List Char)))
      (msgs : List Msg),
      scanWalk folder extensions list_all check_tabs trailing exclusions
        check_eol show_execute files ic lv msgs = .ok (ic, msgs) := by
  intro files
  induction files with
  | nil => intro ic lv msgs; rfl
  | cons f rest ih =>
    intro ic lv msgs
    cases hF : f.isFile <;> cases hM : extMatch extensions f.suffix <;>
      simp [scanWalk, hF, hM, hexc, ih]

/-- When the scan root is not excluded, the exclusion list is inert: the
walk behaves exactly as with no exclusions. -/
theorem scanWalk_not_excluded (folder : List String) (extensions : Option (List String))
    (list_all check_tabs trailing : Bool) (exclusions : List (List String))
    (check_eol : Option (List Char)) (show_execute : Bool)
    (hexc : isExcluded folder exclusions = false) :
    ∀ (files : List ScanFile) (ic : Bool) (lv : Option (List (List Char)))
      (msgs : List Msg),
      scanWalk folder extensions list_all check_tabs trailing exclusions
        check_eol show_execute files ic lv msgs =
      scanWalk folder extensions list_all check_tabs trailing []
        check_eol show_execute files ic lv msgs := by
  intro files
  induction files with
  | nil => intro ic lv msgs; rfl
  | cons f rest ih =>
    intro ic lv msgs
    cases hF : f.isFile <;> cases hM : extMatch extensions f.suffix <;>
      simp [scanWalk, hF, hM, hexc, ih, show isExcluded folder [] = false from rfl]

/-! ## Lemmas about the manifest generator -/

theorem mem_insertSorted (x y : List Char) (l : List (List Char)) :
    y ∈ insertSorted x l ↔ y = x ∨ y ∈ l := by
  induction l with
  | nil => simp [insertSorted]
  | cons z zs ih =>
    by_cases hle : pyStrLe x z = true
    · simp [insertSorted, hle]
    · simp only [insertSorted, if_neg hle, List.mem_cons, ih]
      tauto

theorem mem_sortStrings (y : List Char) (l : List (List Char)) :
    y ∈ sortStrings l ↔ y ∈ l := by
  induction l with
  | nil => simp [sortStrings]
  | cons z zs ih => simp [sortStrings, mem_insertSorted, ih]

/-- If some key in the rendering list has a header longer than the wrap
column, the rendering loop fails. -/
theorem renderModules_error (results : List (List Char × List (List Char)))
    (lineup : Bool) (wrap max_len indent : Nat) :
    ∀ keys : List (List Char),
      (∃ k ∈ keys, wrap < (headerOf lineup max_len k).length) →
      ∃ msg, renderModules results lineup wrap max_len indent keys =
        .error msg := by
  intro keys
  induction keys with
  | nil => rintro ⟨k, hk, _⟩; simp at hk
  | cons k0 ks ih =>
    rintro ⟨k, hk, hlen⟩
    by_cases h0 : wrap < (headerOf lineup max_len k0).length
    · exact ⟨"ValueError: the specified min_wrap:wrap was too small.",
        by simp [renderModules, line_wrap, h0]⟩
    · rcases List.mem_cons.mp hk with rfl | hk'
      · exact absurd hlen h0
      · obtain ⟨msg, hmsg⟩ := ih ⟨k, hk', hlen⟩
        exact ⟨msg, by simp [renderModules, line_wrap, h0, hmsg]⟩

/-- When no listed entry is a `.py` file with at least one extracted
declaration, the results dictionary stays empty. -/
theorem gatherResults_no_decls (files : List InitFile)
    (h : ∀ e ∈ files, e.isDir = true ∨ e.suffix ≠ ".py" ∨
      getPythonDefinitionsL e.text false = []) :
    ∀ acc, gatherResults files acc = acc := by
  induction files with
  | nil => intro acc; rfl
  | cons e rest ih =>
    intro acc
    have he := h e (List.mem_cons_self e rest)
    have htail : ∀ x ∈ rest, x.isDir = true ∨ x.suffix ≠ ".py" ∨
        getPythonDefinitionsL x.text false = [] :=
      fun x hx => h x (List.mem_cons_of_mem e hx)
    rcases he with hD | hS | hF
    · simp [gatherResults, hD, ih htail]
    · cases hD : e.isDir
      · simp [gatherResults, hD, hS, ih htail]
      · simp [gatherResults, hD, ih htail]
    · cases hD : e.isDir
      · by_cases hS : e.suffix = ".py"
        · simp [gatherResults, hD, hS, hF, ih htail]
        · simp [gatherResults, hD, hS, ih htail]
      · simp [gatherResults, hD, ih htail]

/-! ## Claim theorems for the declaration extractor -/

/-- C2: the spec says a candidate constant token is appended only if every
character of it other than uppercase letters is an underscore.  In the
source, `extended_letters = frozenset(cap_letters & {"_"})` is the *empty*
set (`&` is intersection), so the guard `len(extended_letters - set(temp2))
== 0` always holds and the token `"Abc"` — which contains lowercase
letters — is appended anyway. -/
theorem claim_C2_constant_filter_failing :
    get_python_definitions "Abc = 1" false = ["Abc"]
    ∧ extendedLetters = [] := ⟨rfl, rfl⟩

/-- C8: privacy filter of `get_python_definitions`.  With
`include_private=False` no returned name begins with an underscore (from
any scan state); with `include_private=True` a `def ` line reached in the
normal state contributes its name even when private; and the spec's
concrete scenario evaluates as stated. -/
theorem claim_C8_privacy_filter :
    (∀ (lines : List (List Char)) (sn ss : Bool) (name : List Char),
        name ∈ scanDefs false lines sn ss → pyStartsWith name ['_'] = false)
    ∧ (∀ (line : List Char) (rest : List (List Char)),
        pyStartsWith line ("def ".toList) = true →
        scanDefs true (line :: rest) false false =
          extractName (line.drop 4) :: scanDefs true rest false false)
    ∧ (∀ (line : List Char) (rest : List (List Char)),
        pyStartsWith line ("class ".toList) = true →
        scanDefs true (line :: rest) false false =
          extractName (line.drop 6) :: scanDefs true rest false false)
    ∧ get_python_definitions "def a():\n    pass\ndef _b():\n    pass\n" false = ["a"]
    ∧ get_python_definitions "def a():\n    pass\ndef _b():\n    pass\n" true
        = ["a", "_b"] :=
  ⟨scanDefs_no_underscore, scanDefs_def_line, scanDefs_class_line, rfl, rfl⟩

/-- Witness for C8 at concrete inputs. -/
theorem claim_C8_privacy_filter_witness :
    pyStartsWith "a".toList ['_'] = false
    ∧ scanDefs true ["def _b():".toList] false false =
        extractName ("def _b():".toList.drop 4) :: scanDefs true [] false false
    ∧ scanDefs true ["class _C():".toList] false false =
        extractName ("class _C():".toList.drop 6) :: scanDefs true [] false false :=
  ⟨claim_C8_privacy_filter.1 ["def a():".toList] false false "a".toList (by decide),
   claim_C8_privacy_filter.2.1 "def _b():".toList [] (by decide),
   claim_C8_privacy_filter.2.2.1 "class _C():".toList [] (by decide)⟩

/-- C9 counterexample: the claim quantifies over *every* text in which a
line consisting exactly of the overload marker is immediately followed by a
definition line.  In `"@overload\n@overload\ndef f():\n"` the second
`@overload` line is itself swallowed by the first one's skip-next flag, so
the definition line immediately following it *is* extracted — the line
after a marker can contribute a declaration. -/
theorem claim_C9_counterexample :
    get_python_definitions "@overload\n@overload\ndef f():\n" false = ["f"] := rfl

/-- C9 (amended): when the overload marker line is reached in the *normal*
scanner state, the marker and the line immediately following it contribute
no declaration, and in the source's own overload scenario the subsequent
true definition of the same name is returned exactly once. -/
theorem claim_C9_overload_skip :
    (∀ (dline : List Char) (rest : List (List Char)) (incl : Bool),
        scanDefs incl ("@overload".toList :: dline :: rest) false false =
          scanDefs incl rest false false)
    ∧ get_python_definitions
        "@overload\ndef fun(x: int) -> int: ...\n\n@overload\ndef fun(x: int) -> float: ...\n\ndef fun(x: int):\n    pass\n"
        false = ["fun"] := by
  constructor
  · intro dline rest incl
    rw [scanDefs_overload, scanDefs_skipNext]
  · rfl

/-! ## Claim theorems for the repository scanner -/

/-- C1: the claim says the verdict is unclean whenever a tab issue line is
printed, regardless of `list_all`.  In the source the `is_clean = False`
assignment for tab and trailing issues sits inside `if not already_listed:`,
so with `list_all=True` (which pre-sets `already_listed`) a tab issue line
is printed yet the verdict stays clean. -/
theorem claim_C1_verdict_vs_issues_failing :
    find_repo_issues ["r"] [⟨"/r/f.py", ".py", true, false, some ["\tx\n".toList]⟩]
        (some [".py"]) true true false [] none false =
      Except.ok (true, [Msg.evaluating "/r/f.py",
        Msg.lineIssue "/r/f.py" 1 "\tx\n".toList])
    ∧ (Msg.lineIssue "/r/f.py" 1 "\tx\n".toList).isIssue = true := ⟨rfl, rfl⟩

/-- C3: the exclusion check is made against the scan root once per scan:
if some exclusion equals the root or is an ancestor of it, the entire scan
is suppressed (no diagnostics, clean verdict); otherwise the exclusion list
has no effect at all, and the run equals the run with no exclusions. -/
theorem claim_C3_exclusion_scope (folder : List String) (files : List ScanFile)
    (extensions : Option (List String)) (list_all check_tabs trailing : Bool)
    (exclusions : List (List String)) (check_eol : Option (List Char))
    (show_execute : Bool) (hne : exclusions ≠ []) :
    find_repo_issues folder files extensions list_all check_tabs trailing
        exclusions check_eol show_execute =
      (if isExcluded folder exclusions then Except.ok (true, [])
       else find_repo_issues folder files extensions list_all check_tabs trailing
         [] check_eol show_execute) := by
  by_cases hexc : isExcluded folder exclusions = true
  · rw [if_pos hexc]
    exact scanWalk_excluded folder extensions list_all check_tabs trailing
      exclusions check_eol show_execute hexc files true none []
  · rw [if_neg hexc]
    have hexc' : isExcluded folder exclusions = false := by simpa using hexc
    exact scanWalk_not_excluded folder extensions list_all check_tabs trailing
      exclusions check_eol show_execute hexc' files true none []

/-- Witness for C3 at a concrete scan whose root lies under the exclusion. -/
theorem claim_C3_exclusion_scope_witness :
    find_repo_issues ["r", "sub"]
        [⟨"/r/sub/f.py", ".py", true, false, some ["\tx\n".toList]⟩]
        (some [".py"]) false true false [["r"]] none false =
      (if isExcluded ["r", "sub"] [["r"]] then Except.ok (true, [])
       else find_repo_issues ["r", "sub"]
         [⟨"/r/sub/f.py", ".py", true, false, some ["\tx\n".toList]⟩]
         (some [".py"]) false true false [] none false) :=
  claim_C3_exclusion_scope ["r", "sub"]
    [⟨"/r/sub/f.py", ".py", true, false, some ["\tx\n".toList]⟩]
    (some [".py"]) false true false [["r"]] none false (by decide)

/-- C5: the claim says an undecodable file is reported, skipped and the
scan continues to completion.  In the source `lines` is assigned only when
`readlines()` succeeds, so when the first scanned file fails to decode the
subsequent `for c, line in enumerate(lines)` raises `NameError` and the
walk aborts — the remaining files are never scanned. -/
theorem claim_C5_decode_error_failing :
    find_repo_issues ["r"]
        [⟨"/r/bad.py", ".py", true, false, none⟩,
         ⟨"/r/good.py", ".py", true, false, some ["ok\n".toList]⟩]
        (some [".py"]) false true false [] none false =
      Except.error "NameError: name 'lines' is not defined" := rfl

/-! ## Claim theorems for the manifest generator -/

/-- C4: the claim says a direct-child file named like the output file
(`__init__.py`) never contributes a module entry.  In the source the
exclusion test is `any((exc in this_elem.parents for exc in exclusions))`,
which compares the *string* `"__init__.py"` against `Path` objects and is
therefore never true — so a direct child `__init__.py` with declarations
does contribute the module entry `__init__` to the rendered manifest. -/
theorem claim_C4_init_exclusion_failing :
    make_python_init
        [⟨"__init__".toList, ".py", false, [["pkg"]], "def a():\n    pass\n".toList⟩]
        true 100 none =
      Except.ok ⟨"from .__init__ import a".toList, [], []⟩
    ∧ pyEq (PyVal.str "__init__.py") (PyVal.path ["pkg"]) = false := ⟨rfl, rfl⟩

/-- C6: whenever some module's computed header
`"from ." + moduleName + pad + " import "` is longer than the requested
wrap column, `make_python_init` fails with the word-wrap collaborator's
error, generation aborts, and no output is produced (in particular nothing
is written for any supplied filename). -/
theorem claim_C6_wrap_abort (files : List InitFile) (lineup : Bool) (wrap : Nat)
    (filename : Option (List String)) (max_len : Nat) (key : List Char)
    (hmax : pyMaxNat ((gatherResults files []).map (fun p => p.1.length)) =
      .ok max_len)
    (hkey : key ∈ (gatherResults files []).map (fun p => p.1))
    (hlen : wrap < (headerOf lineup max_len key).length) :
    ∃ msg, make_python_init files lineup wrap filename = Except.error msg := by
  obtain ⟨msg, hmsg⟩ := renderModules_error (gatherResults files []) lineup wrap
    max_len (("from . import ".toList).length + max_len + 4)
    (sortStrings ((gatherResults files []).map (fun p => p.1)))
    ⟨key, (mem_sortStrings _ _).mpr hkey, hlen⟩
  exact ⟨msg, by simp only [make_python_init, hmax, hmsg]⟩

/-- Witness for C6: a single module `aaa` whose header is 17 characters
long with a requested wrap of 5. -/
theorem claim_C6_wrap_abort_witness :
    ∃ msg, make_python_init [⟨"aaa".toList, ".py", false, [], "def f():\n".toList⟩]
        false 5 none = Except.error msg :=
  claim_C6_wrap_abort [⟨"aaa".toList, ".py", false, [], "def f():\n".toList⟩]
    false 5 none 3 "aaa".toList rfl (by decide) (by decide)

/-- C10: when no direct-child `.py` file yields a declaration (including a
folder with no `.py` files at all), `make_python_init` raises `max()`'s
`ValueError` instead of returning an empty manifest, because the maximum
module-name length is computed over an empty collection. -/
theorem claim_C10_empty_results_error (files : List InitFile) (lineup : Bool)
    (wrap : Nat) (filename : Option (List String))
    (h : ∀ e ∈ files, e.isDir = true ∨ e.suffix ≠ ".py" ∨
      getPythonDefinitionsL e.text false = []) :
    make_python_init files lineup wrap filename =
      Except.error "ValueError: max() arg is an empty sequence" := by
  have hg : gatherResults files [] = [] := gatherResults_no_decls files h []
  simp [make_python_init, hg, pyMaxNat]

/-- Witness for C10: an empty folder and a folder whose only `.py` file has
no declarations. -/
theorem claim_C10_empty_results_error_witness :
    make_python_init [] true 100 none =
      Except.error "ValueError: max() arg is an empty sequence"
    ∧ make_python_init [⟨"mod".toList, ".py", false, [], "x = 1\n".toList⟩]
        true 100 none =
      Except.error "ValueError: max() arg is an empty sequence" :=
  ⟨claim_C10_empty_results_error [] true 100 none (by simp),
   claim_C10_empty_results_error
     [⟨"mod".toList, ".py", false, [], "x = 1\n".toList⟩] true 100 none
     (by intro e he; simp at he; subst he; right; right; rfl)⟩

/-! ## Claim theorem for the test-skeleton generator -/

/-- C7: the claim says a source file under an excluded path is skipped
whether the exclusions are a single path or a tuple of paths.  In the
source the test `exclude in file.parents` compares the *tuple* itself
against `Path` objects and is never true, so with a tuple exclusion a file
under the excluded path is processed anyway: its progress line is announced
and its skeleton is written. -/
theorem claim_C7_tuple_exclude_failing :
    (parentsOf ["repo", "sub", "mod.py"]).contains ["repo", "sub"] = true
    ∧ ∃ content,
      write_unit_test_templates ["repo", "sub"] ["repo", "tests"]
          [⟨["repo", "sub", "mod.py"], "def a():\n".toList⟩]
          "auth".toList (some (PyVal.tup [["repo", "sub"]])) [] false
          "March".toList "2025".toList =
        Except.ok ([["repo", "tests", "test_mod.py"]],
          [(["repo", "tests", "test_mod.py"], content)]) :=
  ⟨rfl, ⟨_, rfl⟩⟩

end Drepo
